import Mathlib

/-!
Verification of the meta-tabletop Socket.IO gateway worker.

This file is a shallow embedding of the Cloudflare Worker that emulates the
Socket.IO v4 protocol over HTTP long-polling (source file `src/index.js`,
exposed here as `src/unnamed/part_003`, with its bundled twin in
`src/unnamed/part_005`).

Modelling conventions:
* JavaScript strings are modelled as `List Char` (`JStr`).  JS string
  operations used by the worker (`includes`, `indexOf` with a start
  position, `substring` with clamping/swapping, `parseInt`, bracket
  indexing returning `undefined` out of range) are embedded exactly below.
* The two global `Map`s (`sessions`, `rooms`) are modelled as insertion
  ordered association lists, with `Map.get`/`Map.set`/`Map.delete`
  embedded as `mapGet`/`mapSet`/`mapDelete` (set replaces in place,
  otherwise appends; delete removes the entry).
* `JSON.stringify` is embedded as `jStringify` over the value grammar `J`
  actually produced by the worker, including its escaping rules and the
  omission of object properties whose value is `undefined`.
* Nondeterministic inputs (`Math.random`-based id generation, `Date.now`,
  `new Date().toISOString()`) are supplied as explicit oracle arguments:
  each handled request carries the values the corresponding calls would
  return.
* The JSON parse of incoming Socket.IO event payloads
  (`parseSocketIOPacket` + the shape checks at the top of
  `handleSocketIOEvent`) is modelled by delivering POSTed packets in an
  already-decoded form (`PacketIn`), projected to exactly the fields the
  router reads (`roomId`, `message`, `type`, `log`); the raw transport
  framing layer (`parseEngineIOPackets`) is embedded exactly at string
  level.
-/

namespace Tabletop

/-- JavaScript strings, modelled as their character sequences. -/
abbrev JStr := List Char

/-- Embedding of `s.substring(a, b)`: JS clamps both arguments into
`[0, s.length]` and swaps them when `a > b`. -/
def jsSubstring (s : JStr) (a b : Int) : JStr :=
  let n := s.length
  let a' := min (max a 0).toNat n
  let b' := min (max b 0).toNat n
  (s.take (max a' b')).drop (min a' b')

/-- Embedding of the one-argument `s.substring(a)` (end defaults to the
string length). -/
def jsSubstringFrom (s : JStr) (a : Int) : JStr :=
  jsSubstring s a s.length

/-- Embedding of `s[i]` bracket indexing with an integer index: out of
range (including negative) yields `undefined`, here `none`. -/
def jsCharAt (s : JStr) (i : Int) : Option Char :=
  if i < 0 then none else s.get? i.toNat

/-- Embedding of `s.indexOf(c, i)`: a negative start position is treated
as `0`; the result is `-1` when the character does not occur at or after
the start position. -/
def jsIndexOf (s : JStr) (c : Char) (i : Int) : Int :=
  let start := (max i 0).toNat
  match (s.drop start).findIdx? (· = c) with
  | none => -1
  | some j => ((start + j : Nat) : Int)

/-- Embedding of `parseInt(s)` (radix unspecified, result `NaN` mapped to
`none`): skip ASCII whitespace, read an optional sign, then read leading
decimal digits (the worker never feeds it a `0x` prefix that matters for
the claims, but hexadecimal input is also honoured); no digits means
`NaN`. -/
def jsParseInt (s : JStr) : Option Int :=
  let isSpace : Char → Bool := fun c =>
    c = ' ' || c = '\t' || c = '\n' || c = '\x0d' || c = '\x0c' || c = '\x0b'
  let s1 := s.dropWhile isSpace
  let (neg, s2) :=
    match s1 with
    | '-' :: rest => (true, rest)
    | '+' :: rest => (false, rest)
    | _ => (false, s1)
  let (radix, s3) :=
    match s2 with
    | '0' :: 'x' :: rest => (16, rest)
    | '0' :: 'X' :: rest => (16, rest)
    | _ => (10, s2)
  let isHex : Char → Bool := fun c =>
    c.isDigit || ('a' ≤ c && c ≤ 'f') || ('A' ≤ c && c ≤ 'F')
  let digits := s3.takeWhile (fun c => (Char.isDigit c) || (radix = 16 && isHex c))
  if digits = [] then none
  else
    let v : Nat := digits.foldl (fun acc c =>
      acc * radix + (if c.isDigit then c.toNat - '0'.toNat
                     else if c.toNat ≥ 'a'.toNat then c.toNat - 'a'.toNat + 10
                     else c.toNat - 'A'.toNat + 10)) 0
    some (if neg then -(v : Int) else (v : Int))

/-- A parsed Engine.IO transport packet, as pushed by
`parseEngineIOPackets`: `type` is `data[0]` (possibly `undefined`, hence
`Option`), `payload` the remainder. -/
structure EIOPacket where
  type : Option Char
  payload : JStr
deriving DecidableEq, Repr

/-- Loop body of `parseEngineIOPackets` (the `while (i < data.length)`
loop).  The position `i` is an `Int` because a negative parsed length can
drive `packetEnd` below the current position; on such inputs the JS loop
re-reads the same prefix forever, so the `fuel` argument (strictly larger
than any terminating run needs, since every continuing iteration strictly
advances `i` by at least one) only cuts off runs on which the source
itself diverges. -/
def parseLoop (data : JStr) : Nat → Int → List EIOPacket → List EIOPacket
  | 0, _, packets => packets
  | fuel + 1, i, packets =>
    if i < (data.length : Int) then
      let lengthEnd := jsIndexOf data ':' i
      if lengthEnd = -1 then
        packets ++ [⟨jsCharAt data i, jsSubstringFrom data (i + 1)⟩]
      else
        match jsParseInt (jsSubstring data i lengthEnd) with
        | none => packets
        | some length =>
          let packetStart := lengthEnd + 1
          let packetEnd := packetStart + length
          if packetEnd > (data.length : Int) then packets
          else
            let packetData := jsSubstring data packetStart packetEnd
            parseLoop data fuel packetEnd
              (packets ++ [⟨jsCharAt packetData 0, jsSubstringFrom packetData 1⟩])
    else packets

/-- Embedding of `parseEngineIOPackets(data)`: a body with no `:` is one
packet (first character = type tag, remainder = payload); otherwise the
length-prefixed loop runs. -/
def parseEngineIOPackets (data : JStr) : List EIOPacket :=
  if ':' ∈ data then parseLoop data (data.length + 1) 0 []
  else [⟨jsCharAt data 0, jsSubstringFrom data 1⟩]

/-- Single-packet encoding as the server itself emits it everywhere: the
one-character type tag concatenated with the payload (no length
prefix). -/
def encodeEIOPacket (t : Char) (p : JStr) : JStr :=
  t :: p

/-! JSON values produced by the worker, and `JSON.stringify`. -/

/-- The JSON value grammar the worker serialises (strings, numbers,
booleans, arrays, objects). -/
inductive J where
  | str (s : JStr)
  | nat (n : Nat)
  | bool (b : Bool)
  | arr (xs : List J)
  | obj (fs : List (JStr × J))

/-- Hex digit characters as emitted by the `\u00XX` escapes of
`JSON.stringify` (lowercase). -/
def hexDigit (n : Nat) : Char :=
  if n < 10 then Char.ofNat ('0'.toNat + n) else Char.ofNat ('a'.toNat + n - 10)

/-- Per-character escaping of `JSON.stringify`. -/
def escapeChar (c : Char) : JStr :=
  if c = '"' then ['\\', '"']
  else if c = '\\' then ['\\', '\\']
  else if c = '\x08' then ['\\', 'b']
  else if c = '\x0c' then ['\\', 'f']
  else if c = '\n' then ['\\', 'n']
  else if c = '\x0d' then ['\\', 'r']
  else if c = '\t' then ['\\', 't']
  else if c.toNat < 32 then ['\\', 'u', '0', '0', hexDigit (c.toNat / 16), hexDigit (c.toNat % 16)]
  else [c]

/-- String-body escaping of `JSON.stringify`. -/
def escapeString (s : JStr) : JStr :=
  s.flatMap escapeChar

/-- Quoted, escaped JSON string literal. -/
def jQuote (s : JStr) : JStr :=
  '"' :: (escapeString s ++ ['"'])

mutual

/-- Embedding of `JSON.stringify` on the grammar `J` (no spaces,
insertion-ordered object keys, as V8 emits). -/
def jStringify : J → JStr
  | .str s => jQuote s
  | .nat n => (toString n).data
  | .bool b => (if b then "true" else "false").data
  | .arr xs => '[' :: (jStringifyList xs ++ [']'])
  | .obj fs => '\x7b' :: (jStringifyFields fs ++ ['\x7d'])

/-- Comma-separated serialisation of array elements. -/
def jStringifyList : List J → JStr
  | [] => []
  | [x] => jStringify x
  | x :: y :: xs => jStringify x ++ ',' :: jStringifyList (y :: xs)

/-- Comma-separated serialisation of object fields. -/
def jStringifyFields : List (JStr × J) → JStr
  | [] => []
  | [(k, v)] => jQuote k ++ ':' :: jStringify v
  | (k, v) :: f :: fs => (jQuote k ++ ':' :: jStringify v) ++ ',' :: jStringifyFields (f :: fs)

end

/-! The data model: sessions, rooms, and the two global maps. -/

/-- Per-session state, as stored in the `sessions` map.  The JS object is
created at handshake with no `roomId` property; `none` models both the
absent property and an explicit `null`. -/
structure Session where
  id : JStr
  connected : Bool
  messageQueue : List JStr
  lastActivity : Nat
  roomId : Option JStr := none
deriving DecidableEq, Repr

/-- Per-room state, as stored in the `rooms` map. -/
structure Room where
  id : JStr
  host : JStr
  players : List JStr
  createdAt : Nat
deriving DecidableEq, Repr

/-- The worker's global mutable state: the two insertion-ordered maps. -/
structure ServerState where
  sessions : List (JStr × Session)
  rooms : List (JStr × Room)
deriving DecidableEq, Repr

/-- State at worker start: both maps empty. -/
def initialState : ServerState := ⟨[], []⟩

/-- Embedding of `Map.get`: the value of the (unique) entry with the given
key, or `undefined`. -/
def mapGet (k : JStr) : List (JStr × α) → Option α
  | [] => none
  | (k', v) :: rest => if k' = k then some v else mapGet k rest

/-- Embedding of `Map.set`: replace the value in place when the key is
present (JS keeps insertion order), otherwise append a new entry. -/
def mapSet (k : JStr) (v : α) : List (JStr × α) → List (JStr × α)
  | [] => [(k, v)]
  | (k', v') :: rest => if k' = k then (k, v) :: rest else (k', v') :: mapSet k v rest

/-- Embedding of `Map.delete`: remove the entry with the given key. -/
def mapDelete (k : JStr) : List (JStr × α) → List (JStr × α)
  | [] => []
  | (k', v') :: rest => if k' = k then rest else (k', v') :: mapDelete k rest

/-- JS truthiness of a string-or-absent value (`if (session.roomId)`,
`if (!sid)`): `undefined`/`null` and the empty string are falsy. -/
def jsTruthyStr : Option JStr → Bool
  | none => false
  | some s => !(s.isEmpty)

/-! The event router (`handleSocketIOEvent`) and broadcaster. -/

/-- Oracle values for the nondeterministic calls an event handler can
make: `generateRoomId()`, `Date.now()` and `new Date().toISOString()`. -/
structure Oracle where
  genRoomId : JStr := []
  nowMs : Nat := 0
  isoTime : JStr := []
deriving DecidableEq, Repr

/-- The fields of `eventPayload = eventData[1] || {}` that the router
reads.  Any JSON value supplied by the client determines these four
projections (a missing/falsy second array element, or a non-object one,
yields all-`none`). -/
structure EventPayload where
  roomId : Option JStr := none
  message : Option JStr := none
  type : Option JStr := none
  log : Option JStr := none
deriving DecidableEq, Repr

/-- One Socket.IO EVENT, after `parseSocketIOPacket` and the array checks
at the top of `handleSocketIOEvent`: `name` is `eventData[0]` (a
non-string first element compares unequal to every `case` label and so
behaves like an unknown name). -/
structure EventIn where
  name : JStr
  payload : EventPayload
deriving DecidableEq, Repr

/-- Encoding of a reply or broadcast packet:
`ENGINE_IO_PACKETS.MESSAGE + SOCKET_IO_PACKETS.EVENT +
JSON.stringify([eventName, data])`. -/
def encodeEventPacket (eventName : JStr) (data : J) : JStr :=
  '4' :: '2' :: jStringify (J.arr [J.str eventName, data])

/-- Append one pre-encoded packet to a session's outbound queue through
the `sessions` map; a missing session is silently skipped (the
`if (playerSession)` guard in `broadcastToRoom` — and for the caller
itself the session always exists). -/
def pushMsg (st : ServerState) (sid : JStr) (msg : JStr) : ServerState :=
  match mapGet sid st.sessions with
  | none => st
  | some s =>
    { st with sessions := mapSet sid ({ s with messageQueue := s.messageQueue ++ [msg] }) st.sessions }

/-- Embedding of `broadcastToRoom(roomId, eventName, data,
excludeSessionId = null)`: encode once, then enqueue to every member of
the room other than the excluded session, skipping members whose session
no longer exists. -/
def broadcastToRoom (st : ServerState) (roomId : JStr) (eventName : JStr) (data : J)
    (excludeSessionId : Option JStr) : ServerState :=
  match mapGet roomId st.rooms with
  | none => st
  | some room =>
    let message := encodeEventPacket eventName data
    room.players.foldl
      (fun acc playerId =>
        if excludeSessionId = some playerId then acc else pushMsg acc playerId message)
      st

/-- Embedding of the `case 'createRoom'` arm: store a fresh room with the
caller as host and sole player, point the caller's `roomId` at it, and
queue the `createdRoom` acknowledgement. -/
def handleCreateRoom (st : ServerState) (sessionId : JStr) (session : Session)
    (o : Oracle) : ServerState :=
  let roomId := o.genRoomId
  let st1 := { st with rooms := mapSet roomId ⟨roomId, sessionId, [sessionId], o.nowMs⟩ st.rooms }
  let createResponse := encodeEventPacket "createdRoom".data
    (J.obj [("roomId".data, J.str roomId), ("isHost".data, J.bool true)])
  let session1 := { session with roomId := some roomId,
                                 messageQueue := session.messageQueue ++ [createResponse] }
  { st1 with sessions := mapSet sessionId session1 st1.sessions }

/-- Embedding of the `case 'joinRoom'` arm: if the target room exists and
the caller is not already a member, append the caller to its players,
point the caller's `roomId` at it, queue `joinedRoom` to the caller, and
broadcast `playerJoined` to the other members; otherwise do nothing. -/
def handleJoinRoom (st : ServerState) (sessionId : JStr) (session : Session)
    (payload : EventPayload) : ServerState :=
  match payload.roomId with
  | none => st
  | some targetRoomId =>
    match mapGet targetRoomId st.rooms with
    | none => st
    | some room =>
      if sessionId ∈ room.players then st
      else
        let room1 := { room with players := room.players ++ [sessionId] }
        let st1 := { st with rooms := mapSet targetRoomId room1 st.rooms }
        let joinResponse := encodeEventPacket "joinedRoom".data
          (J.obj [("roomId".data, J.str targetRoomId), ("isHost".data, J.bool false)])
        let session1 := { session with roomId := some targetRoomId,
                                       messageQueue := session.messageQueue ++ [joinResponse] }
        let st2 := { st1 with sessions := mapSet sessionId session1 st1.sessions }
        broadcastToRoom st2 targetRoomId "playerJoined".data
          (J.obj [("sessionId".data, J.str sessionId)]) (some sessionId)

/-- Embedding of the `if (room) { ... }` block of the `leaveRoom`
arm: filter the caller out of the room's players; delete the room when
that empties it, otherwise store the filtered list and broadcast
`playerLeft` to the remaining members. -/
def leaveRoomStep (st : ServerState) (sessionId r : JStr) : ServerState :=
  match mapGet r st.rooms with
  | none => st
  | some room =>
    let players := room.players.filter (fun p => !(p = sessionId : Bool))
    if players.length = 0 then { st with rooms := mapDelete r st.rooms }
    else
      broadcastToRoom { st with rooms := mapSet r ({ room with players := players }) st.rooms }
        r "playerLeft".data (J.obj [("sessionId".data, J.str sessionId)]) (some sessionId)

/-- Embedding of the `case 'leaveRoom'` arm: when the caller's `roomId` is
truthy, run `leaveRoomStep` on it, then clear the caller's `roomId` and
queue the `leftRoom` acknowledgement (the caller's session is re-fetched
because the JS mutations act on the live map entry); otherwise nothing at
all happens. -/
def handleLeaveRoom (st : ServerState) (sessionId : JStr) (session : Session) : ServerState :=
  if jsTruthyStr session.roomId then
    let st1 := leaveRoomStep st sessionId (session.roomId.getD [])
    let leaveResponse := encodeEventPacket "leftRoom".data (J.obj [])
    match mapGet sessionId st1.sessions with
    | none => st1
    | some s1 =>
      let s2 := { s1 with roomId := none, messageQueue := s1.messageQueue ++ [leaveResponse] }
      { st1 with sessions := mapSet sessionId s2 st1.sessions }
  else st

/-- Embedding of `eventPayload.type || 'chat'` (absent and empty string
are falsy). -/
def jsOrChat : Option JStr → JStr
  | none => "chat".data
  | some t => if t.isEmpty then "chat".data else t

/-- Embedding of the `case 'chatMessage'` arm: when the caller is in a
room, broadcast the chat packet to the room.  The source passes NO
`excludeSessionId` argument here, so the default `null` applies and the
sender is among the recipients.  `JSON.stringify` drops the `message`
property when the client sent none (`undefined`). -/
def handleChatMessage (st : ServerState) (sessionId : JStr) (session : Session)
    (payload : EventPayload) (o : Oracle) : ServerState :=
  if jsTruthyStr session.roomId then
    let data := J.obj (
      (match payload.message with
       | some m => [("message".data, J.str m)]
       | none => []) ++
      [("from".data, J.str sessionId),
       ("time".data, J.str o.isoTime),
       ("type".data, J.str (jsOrChat payload.type))])
    broadcastToRoom st (session.roomId.getD []) "chatMessage".data data none
  else st

/-- Embedding of the `case 'logMessage'` arm: like `chatMessage`, with a
`log` field and no `type` defaulting, and again no exclusion argument. -/
def handleLogMessage (st : ServerState) (sessionId : JStr) (session : Session)
    (payload : EventPayload) (o : Oracle) : ServerState :=
  if jsTruthyStr session.roomId then
    let data := J.obj (
      (match payload.log with
       | some l => [("log".data, J.str l)]
       | none => []) ++
      [("from".data, J.str sessionId),
       ("time".data, J.str o.isoTime)])
    broadcastToRoom st (session.roomId.getD []) "logMessage".data data none
  else st

/-- Embedding of `handleSocketIOEvent(sessionId, session, eventData)`.
The `session` reference the JS code captures is the live map entry, so it
is re-fetched here; POST handling dispatches only for sessions it just
found, and sessions are never removed, so the `none` arm is
unreachable from the embedded entry points. -/
def handleSocketIOEvent (st : ServerState) (sessionId : JStr) (o : Oracle)
    (ev : EventIn) : ServerState :=
  match mapGet sessionId st.sessions with
  | none => st
  | some session =>
    if ev.name = "createRoom".data then handleCreateRoom st sessionId session o
    else if ev.name = "joinRoom".data then handleJoinRoom st sessionId session ev.payload
    else if ev.name = "leaveRoom".data then handleLeaveRoom st sessionId session
    else if ev.name = "chatMessage".data then handleChatMessage st sessionId session ev.payload o
    else if ev.name = "logMessage".data then handleLogMessage st sessionId session ev.payload o
    else st

/-- One POSTed transport packet, already decoded (see the header comment):
a MESSAGE packet whose Socket.IO payload parsed as an EVENT with a
non-empty array, a PING packet, or anything else (which the POST loop
ignores). -/
inductive PacketIn where
  | event (ev : EventIn) (o : Oracle)
  | ping
  | other
deriving DecidableEq, Repr

/-- Effect of one packet of a POST body (the body of the
`for (const packet of packets)` loop): EVENT messages are routed, PING
queues a PONG (`'3'`) for the posting session, everything else is only
logged. -/
def applyPacket (st : ServerState) (sid : JStr) : PacketIn → ServerState
  | .event ev o => handleSocketIOEvent st sid o ev
  | .ping => pushMsg st sid ['3']
  | .other => st

/-! The transport handler: polling GET/POST and the top-level fetch. -/

/-- An HTTP response: status code and plain-text body. -/
structure HttpResponse where
  status : Nat
  body : JStr
deriving DecidableEq, Repr

/-- The handshake parameter object
`{sid, upgrades: [], pingInterval: 25000, pingTimeout: 20000,
maxPayload: 1000000}`. -/
def handshakeData (sessionId : JStr) : J :=
  J.obj [("sid".data, J.str sessionId),
         ("upgrades".data, J.arr []),
         ("pingInterval".data, J.nat 25000),
         ("pingTimeout".data, J.nat 20000),
         ("maxPayload".data, J.nat 1000000)]

/-- The handshake response body:
`ENGINE_IO_PACKETS.OPEN + JSON.stringify(handshakeData)`. -/
def handshakeBody (sessionId : JStr) : JStr :=
  '0' :: jStringify (handshakeData sessionId)

/-- Embedding of `handlePollingGet(searchParams)`.  `sid` is the raw query
parameter (`none` when absent); a falsy `sid` (absent or empty) takes the
handshake branch, which stores a fresh session under the id
`generateSessionId()` would have produced (the `freshSid` oracle).  An
unknown session id yields 400; a known one is touched, then either the
CONNECT packet (`'40'`), one shifted queue entry, or an empty body is
returned. -/
def handlePollingGet (st : ServerState) (sid : Option JStr) (freshSid : JStr)
    (now : Nat) : ServerState × HttpResponse :=
  if !(jsTruthyStr sid) then
    let sessionId := freshSid
    let st1 := { st with sessions := mapSet sessionId ⟨sessionId, false, [], now, none⟩ st.sessions }
    (st1, ⟨200, handshakeBody sessionId⟩)
  else
    match mapGet (sid.getD []) st.sessions with
    | none => (st, ⟨400, "Session not found".data⟩)
    | some session =>
      let session := { session with lastActivity := now }
      if !session.connected then
        let session := { session with connected := true }
        ({ st with sessions := mapSet (sid.getD []) session st.sessions }, ⟨200, "40".data⟩)
      else
        match session.messageQueue with
        | message :: rest =>
          let session := { session with messageQueue := rest }
          ({ st with sessions := mapSet (sid.getD []) session st.sessions }, ⟨200, message⟩)
        | [] =>
          ({ st with sessions := mapSet (sid.getD []) session st.sessions }, ⟨200, []⟩)

/-- Embedding of `handlePollingPost(request, searchParams)`: an absent or
unknown `sid` yields 400 before any state is read or changed; otherwise
the session is touched and every decoded packet of the body is applied in
order, and the fixed acknowledgement `'ok'` is returned. -/
def handlePollingPost (st : ServerState) (sid : Option JStr) (packets : List PacketIn)
    (now : Nat) : ServerState × HttpResponse :=
  match sid with
  | none => (st, ⟨400, "Session not found".data⟩)
  | some s =>
    match mapGet s st.sessions with
    | none => (st, ⟨400, "Session not found".data⟩)
    | some sess =>
      let st1 := { st with sessions := mapSet s ({ sess with lastActivity := now }) st.sessions }
      let st2 := packets.foldl (fun acc p => applyPacket acc s p) st1
      (st2, ⟨200, "ok".data⟩)

/-- One handled request at the polling layer, carrying its oracle data:
a GET (handshake when `sid` is falsy, else a poll) or a POST with its
decoded body. -/
inductive Request where
  | get (sid : Option JStr) (freshSid : JStr) (now : Nat)
  | post (sid : Option JStr) (packets : List PacketIn) (now : Nat)
deriving DecidableEq, Repr

/-- Effect of one handled request on the server state, with its
response. -/
def applyRequest (st : ServerState) : Request → ServerState × HttpResponse
  | .get sid freshSid now => handlePollingGet st sid freshSid now
  | .post sid packets now => handlePollingPost st sid packets now

/-- An inbound HTTP request as the worker's `fetch` sees it: method,
`url.pathname`, the three query parameters it reads, and (for POST) the
decoded body plus the GET oracle data. -/
structure HttpRequest where
  method : JStr
  pathname : JStr
  eio : Option JStr
  transport : Option JStr
  sid : Option JStr
  packets : List PacketIn := []
  freshSid : JStr := []
  now : Nat := 0
deriving DecidableEq, Repr

/-- Embedding of the worker's `fetch` dispatch: OPTIONS preflight (204),
non-`/socket.io/` paths (404), then the Engine.IO version gate (400
before anything touches the registries), then method/transport
dispatch with `Bad Request` fallthrough. -/
def fetchWorker (st : ServerState) (req : HttpRequest) : ServerState × HttpResponse :=
  if req.method = "OPTIONS".data then (st, ⟨204, []⟩)
  else if !(List.isPrefixOf "/socket.io/".data req.pathname) then
    (st, ⟨404, "Not Found".data⟩)
  else if !(req.eio = some "4".data : Bool) then
    (st, ⟨400, "Unsupported Engine.IO version".data⟩)
  else if req.method = "GET".data then
    if req.transport = some "polling".data then
      handlePollingGet st req.sid req.freshSid req.now
    else if req.transport = some "websocket".data then
      (st, ⟨400, "WebSocket not supported".data⟩)
    else (st, ⟨400, "Bad Request".data⟩)
  else if req.method = "POST".data then
    if req.transport = some "polling".data then
      handlePollingPost st req.sid req.packets req.now
    else (st, ⟨400, "Bad Request".data⟩)
  else (st, ⟨400, "Bad Request".data⟩)

/-- Reachability of a server state under any sequence of handled
requests, starting from the empty registries. -/
inductive Reachable : ServerState → Prop where
  | init : Reachable initialState
  | step (st : ServerState) (r : Request) :
      Reachable st → Reachable (applyRequest st r).1

/-! Freshness of generated room ids.  `generateRoomId()` draws from
`Math.random()`; the spec postulates that generated ids are unique for
the process lifetime, so runs in which a draw collides with a stored room
id are excluded by the predicate below when we prove the membership
invariant (a collision would silently overwrite the stored room). -/

/-- A packet's room-id draw does not collide with a stored room. -/
def freshPacket (st : ServerState) : PacketIn → Bool
  | .event ev o => !(ev.name = "createRoom".data : Bool) || (mapGet o.genRoomId st.rooms).isNone
  | _ => true

/-- All room-id draws of a POST body are fresh at the state at which the
loop processes them. -/
def freshPackets : ServerState → JStr → List PacketIn → Bool
  | _, _, [] => true
  | st, sid, p :: ps => freshPacket st p && freshPackets (applyPacket st sid p) sid ps

/-- All room-id draws of a request are fresh when drawn. -/
def freshReq (st : ServerState) : Request → Bool
  | .get _ _ _ => true
  | .post none _ _ => true
  | .post (some s) packets now =>
    match mapGet s st.sessions with
    | none => true
    | some sess =>
      freshPackets { st with sessions := mapSet s ({ sess with lastActivity := now }) st.sessions }
        s packets

/-- Reachability under request sequences whose room-id draws never
collide with a stored room id. -/
inductive ReachableFresh : ServerState → Prop where
  | init : ReachableFresh initialState
  | step (st : ServerState) (r : Request) :
      ReachableFresh st → freshReq st r = true → ReachableFresh (applyRequest st r).1

/-- Forward membership consistency: a set `roomId` always points at a
stored room whose players contain the session. -/
def RoomIdSound (st : ServerState) : Prop :=
  ∀ sid session r, mapGet sid st.sessions = some session → session.roomId = some r →
    ∃ room, mapGet r st.rooms = some room ∧ sid ∈ room.players

/-- The claimed bidirectional membership consistency: `roomId = r` holds
exactly when room `r` is stored and lists the session among its
players. -/
def MembershipIff (st : ServerState) : Prop :=
  ∀ sid session, mapGet sid st.sessions = some session →
    ∀ r, (session.roomId = some r ↔ ∃ room, mapGet r st.rooms = some room ∧ sid ∈ room.players)

/-- Registry well-formedness: both maps have pairwise distinct keys (as
any JS `Map` does), and no stored room has an empty players list. -/
def StateWF (st : ServerState) : Prop :=
  (st.sessions.map Prod.fst).Nodup ∧ (st.rooms.map Prod.fst).Nodup ∧
    ∀ r room, mapGet r st.rooms = some room → room.players ≠ []

/-- A sequence of polls (GET with a session id) at the given timestamps,
collecting the responses in order. -/
def pollTrace (sid : JStr) : ServerState → List Nat → ServerState × List HttpResponse
  | st, [] => (st, [])
  | st, t :: ts =>
    let (st1, resp) := handlePollingGet st (some sid) [] t
    let (st2, resps) := pollTrace sid st1 ts
    (st2, resp :: resps)

/-- A sequence of handshakes (GET without a session id), each with its
fresh-id draw and timestamp, collecting the responses in order. -/
def handshakeTrace : ServerState → List (JStr × Nat) → ServerState × List HttpResponse
  | st, [] => (st, [])
  | st, (freshSid, t) :: rest =>
    let (st1, resp) := handlePollingGet st none freshSid t
    let (st2, resps) := handshakeTrace st1 rest
    (st2, resp :: resps)

/-! Concrete runs used to witness or refute the claims. -/

/-- Run refuting bidirectional membership consistency: session `s1`
creates a room `r1` and then, while still a member of `r1`, creates a
second room `r2`.  Neither `createRoom` nor `joinRoom` removes the caller
from its previous room. -/
def cexMembershipState : ServerState :=
  (applyRequest
    (applyRequest
      (applyRequest initialState (.get none "s1".data 10)).1
      (.post (some "s1".data) [.event ⟨"createRoom".data, {}⟩ ⟨"r1".data, 11, []⟩] 11)).1
    (.post (some "s1".data) [.event ⟨"createRoom".data, {}⟩ ⟨"r2".data, 12, []⟩] 12)).1

/-- Run demonstrating the chat echo: `s1` creates room `r1`, `s2` joins
it, `s1` sends a chat message. -/
def chatEchoState : ServerState :=
  (applyRequest
    (applyRequest
      (applyRequest
        (applyRequest
          (applyRequest initialState (.get none "s1".data 0)).1
          (.get none "s2".data 1)).1
        (.post (some "s1".data) [.event ⟨"createRoom".data, {}⟩ ⟨"r1".data, 2, []⟩] 2)).1
      (.post (some "s2".data) [.event ⟨"joinRoom".data, { roomId := some "r1".data }⟩ {}] 3)).1
    (.post (some "s1".data) [.event ⟨"chatMessage".data, { message := some "hi".data }⟩ ⟨[], 4, "T".data⟩] 4)).1

/-- The chat packet broadcast in `chatEchoState`, exactly as the worker
encodes it. -/
def chatEchoPacket : JStr :=
  encodeEventPacket "chatMessage".data
    (J.obj [("message".data, J.str "hi".data), ("from".data, J.str "s1".data),
            ("time".data, J.str "T".data), ("type".data, J.str "chat".data)])

/-- A directly constructed state with an established session holding two
queued packets (used to witness the FIFO polling theorem). -/
def fifoDemoState : ServerState :=
  ⟨[("s1".data, ⟨"s1".data, true, ["A".data, "B".data], 0, none⟩)], []⟩

/-- State with one session `s1` inside a room `r1` it created (used to
witness theorems whose hypotheses need a populated registry). -/
def demoRoomState : ServerState :=
  (applyRequest
    (applyRequest initialState (.get none "s1".data 0)).1
    (.post (some "s1".data) [.event ⟨"createRoom".data, {}⟩ ⟨"r1".data, 1, []⟩] 1)).1

/-! Lemmas about the association-list map operations. -/

theorem mapGet_set (k k' : JStr) (v : α) (m : List (JStr × α)) :
    mapGet k' (mapSet k v m) = if k = k' then some v else mapGet k' m := by
  induction m with
  | nil => by_cases h : k = k' <;> simp [mapSet, mapGet, h]
  | cons p rest ih =>
    obtain ⟨a, b⟩ := p
    by_cases hak : a = k
    · subst hak
      by_cases h : a = k' <;> simp [mapSet, mapGet, h]
    · by_cases h : a = k'
      · subst h
        have hk : ¬ k = a := fun hc => hak hc.symm
        simp [mapSet, mapGet, hak, hk]
      · simp [mapSet, mapGet, hak, h, ih]

theorem mapGet_set_self (k : JStr) (v : α) (m : List (JStr × α)) :
    mapGet k (mapSet k v m) = some v := by
  simp [mapGet_set]

theorem mapGet_set_ne (k k' : JStr) (v : α) (m : List (JStr × α)) (h : k ≠ k') :
    mapGet k' (mapSet k v m) = mapGet k' m := by
  simp [mapGet_set, h]

theorem mapGet_del_ne (k k' : JStr) (m : List (JStr × α)) (h : k ≠ k') :
    mapGet k' (mapDelete k m) = mapGet k' m := by
  induction m with
  | nil => rfl
  | cons p rest ih =>
    obtain ⟨a, b⟩ := p
    by_cases hak : a = k
    · have hak' : ¬ a = k' := by rw [hak]; exact h
      simp only [mapDelete, mapGet, if_pos hak, if_neg hak']
    · by_cases h' : a = k'
      · simp only [mapDelete, mapGet, if_neg hak, if_pos h']
      · simp only [mapDelete, mapGet, if_neg hak, if_neg h', ih]

theorem mapGet_eq_none_iff (k : JStr) (m : List (JStr × α)) :
    mapGet k m = none ↔ k ∉ m.map Prod.fst := by
  induction m with
  | nil => simp [mapGet]
  | cons p rest ih =>
    obtain ⟨a, b⟩ := p
    by_cases hak : a = k
    · subst hak
      simp only [mapGet, if_pos rfl, List.map_cons, List.mem_cons]
      constructor
      · intro h; cases h
      · intro h; exact absurd (Or.inl trivial) h
    · simp only [mapGet, if_neg hak, List.map_cons, List.mem_cons, ih]
      constructor
      · intro h hc
        rcases hc with hc | hc
        · exact hak hc.symm
        · exact h hc
      · intro h hc
        exact h (Or.inr hc)

theorem mapGet_isSome_iff (k : JStr) (m : List (JStr × α)) :
    (mapGet k m).isSome ↔ k ∈ m.map Prod.fst := by
  rcases h : mapGet k m with _ | v
  · rw [Option.isSome_none]
    simp only [Bool.false_eq_true, false_iff]
    exact (mapGet_eq_none_iff k m).mp h
  · simp only [Option.isSome_some, true_iff]
    by_contra hmem
    rw [← mapGet_eq_none_iff] at hmem
    rw [h] at hmem
    cases hmem

theorem mapSet_of_absent (k : JStr) (v : α) (m : List (JStr × α))
    (h : mapGet k m = none) : mapSet k v m = m ++ [(k, v)] := by
  induction m with
  | nil => simp [mapSet]
  | cons p rest ih =>
    obtain ⟨a, b⟩ := p
    by_cases hak : a = k
    · subst hak
      simp [mapGet] at h
    · simp [mapGet, hak] at h
      simp [mapSet, hak, ih h]

theorem keys_mapSet_of_mem (k : JStr) (v : α) (m : List (JStr × α))
    (h : mapGet k m ≠ none) : (mapSet k v m).map Prod.fst = m.map Prod.fst := by
  induction m with
  | nil => simp [mapGet] at h
  | cons p rest ih =>
    obtain ⟨a, b⟩ := p
    by_cases hak : a = k
    · subst hak
      simp [mapSet]
    · simp [mapGet, hak] at h
      simp [mapSet, hak, ih h]

theorem keys_nodup_mapSet (k : JStr) (v : α) (m : List (JStr × α))
    (h : (m.map Prod.fst).Nodup) : ((mapSet k v m).map Prod.fst).Nodup := by
  rcases hg : mapGet k m with _ | w
  · rw [mapSet_of_absent k v m hg]
    have hk : k ∉ m.map Prod.fst := (mapGet_eq_none_iff k m).mp hg
    simp [List.nodup_append, h, hk]
  · rw [keys_mapSet_of_mem k v m (by simp [hg])]
    exact h

theorem mapDelete_sublist (k : JStr) (m : List (JStr × α)) :
    (mapDelete k m).Sublist m := by
  induction m with
  | nil => exact List.Sublist.refl _
  | cons p rest ih =>
    obtain ⟨a, b⟩ := p
    by_cases hak : a = k
    · simp only [mapDelete, if_pos hak]
      exact List.sublist_cons_self _ _
    · simp only [mapDelete, if_neg hak]
      exact ih.cons₂ (a, b)

theorem keys_nodup_mapDelete (k : JStr) (m : List (JStr × α))
    (h : (m.map Prod.fst).Nodup) : ((mapDelete k m).map Prod.fst).Nodup :=
  ((mapDelete_sublist k m).map Prod.fst).nodup h

theorem mapGet_del_self (k : JStr) (m : List (JStr × α))
    (h : (m.map Prod.fst).Nodup) : mapGet k (mapDelete k m) = none := by
  induction m with
  | nil => rfl
  | cons p rest ih =>
    obtain ⟨a, b⟩ := p
    simp only [List.map_cons, List.nodup_cons] at h
    by_cases hak : a = k
    · subst hak
      simp only [mapDelete, if_pos rfl]
      rw [mapGet_eq_none_iff]
      exact h.1
    · simp only [mapDelete, if_neg hak, mapGet, ih h.2]

/-! Preservation lemmas for the enqueue and broadcast operations: they
never change the rooms map, the set of stored sessions, or any session's
`roomId`. -/

theorem pushMsg_rooms (st : ServerState) (sid msg : JStr) :
    (pushMsg st sid msg).rooms = st.rooms := by
  unfold pushMsg
  rcases mapGet sid st.sessions with _ | s <;> rfl

theorem pushMsg_roomId (st : ServerState) (sid msg k : JStr) :
    (mapGet k (pushMsg st sid msg).sessions).map Session.roomId
      = (mapGet k st.sessions).map Session.roomId := by
  unfold pushMsg
  rcases h : mapGet sid st.sessions with _ | s
  · rfl
  · by_cases hk : sid = k
    · subst hk
      simp only [mapGet_set_self, h, Option.map_some']
    · simp only [mapGet_set_ne _ _ _ _ hk]

theorem pushMsg_keys (st : ServerState) (sid msg : JStr) :
    (pushMsg st sid msg).sessions.map Prod.fst = st.sessions.map Prod.fst := by
  unfold pushMsg
  rcases h : mapGet sid st.sessions with _ | s
  · rfl
  · exact keys_mapSet_of_mem sid _ st.sessions (by rw [h]; exact Option.noConfusion)

theorem foldl_push_rooms (players : List JStr) (excl : Option JStr) (msg : JStr) :
    ∀ st : ServerState,
      (players.foldl (fun acc p => if excl = some p then acc else pushMsg acc p msg) st).rooms
        = st.rooms := by
  induction players with
  | nil => intro st; rfl
  | cons p ps ih =>
    intro st
    simp only [List.foldl_cons]
    by_cases h : excl = some p
    · rw [if_pos h]; exact ih st
    · rw [if_neg h, ih (pushMsg st p msg), pushMsg_rooms]

theorem foldl_push_roomId (players : List JStr) (excl : Option JStr) (msg : JStr) :
    ∀ (st : ServerState) (k : JStr),
      (mapGet k (players.foldl
          (fun acc p => if excl = some p then acc else pushMsg acc p msg) st).sessions).map
        Session.roomId = (mapGet k st.sessions).map Session.roomId := by
  induction players with
  | nil => intro st k; rfl
  | cons p ps ih =>
    intro st k
    simp only [List.foldl_cons]
    by_cases h : excl = some p
    · rw [if_pos h]; exact ih st k
    · rw [if_neg h, ih (pushMsg st p msg) k, pushMsg_roomId]

theorem foldl_push_keys (players : List JStr) (excl : Option JStr) (msg : JStr) :
    ∀ st : ServerState,
      (players.foldl
          (fun acc p => if excl = some p then acc else pushMsg acc p msg) st).sessions.map
        Prod.fst = st.sessions.map Prod.fst := by
  induction players with
  | nil => intro st; rfl
  | cons p ps ih =>
    intro st
    simp only [List.foldl_cons]
    by_cases h : excl = some p
    · rw [if_pos h]; exact ih st
    · rw [if_neg h, ih (pushMsg st p msg), pushMsg_keys]

theorem broadcast_rooms (st : ServerState) (roomId eventName : JStr) (data : J)
    (excl : Option JStr) :
    (broadcastToRoom st roomId eventName data excl).rooms = st.rooms := by
  unfold broadcastToRoom
  rcases h : mapGet roomId st.rooms with _ | room
  · rfl
  · exact foldl_push_rooms room.players excl _ st

theorem broadcast_roomId (st : ServerState) (roomId eventName : JStr) (data : J)
    (excl : Option JStr) (k : JStr) :
    (mapGet k (broadcastToRoom st roomId eventName data excl).sessions).map Session.roomId
      = (mapGet k st.sessions).map Session.roomId := by
  unfold broadcastToRoom
  rcases h : mapGet roomId st.rooms with _ | room
  · rfl
  · exact foldl_push_roomId room.players excl _ st k

theorem broadcast_keys (st : ServerState) (roomId eventName : JStr) (data : J)
    (excl : Option JStr) :
    (broadcastToRoom st roomId eventName data excl).sessions.map Prod.fst
      = st.sessions.map Prod.fst := by
  unfold broadcastToRoom
  rcases h : mapGet roomId st.rooms with _ | room
  · rfl
  · exact foldl_push_keys room.players excl _ st

/-! Transfer lemmas: the two invariants only look at the rooms map, the
session keys and each session's `roomId`. -/

theorem roomIdSound_congr (st st' : ServerState)
    (hr : st'.rooms = st.rooms)
    (hs : ∀ k, (mapGet k st'.sessions).map Session.roomId
      = (mapGet k st.sessions).map Session.roomId)
    (h : RoomIdSound st) : RoomIdSound st' := by
  intro sid session r hget hroom
  have hproj := hs sid
  rw [hget] at hproj
  rcases hgs : mapGet sid st.sessions with _ | s0
  · rw [hgs] at hproj; cases hproj
  · rw [hgs] at hproj
    simp only [Option.map_some'] at hproj
    obtain ⟨room, hrm, hmem⟩ := h sid s0 r hgs
      (by rw [← Option.some.inj hproj, hroom])
    exact ⟨room, by rw [hr]; exact hrm, hmem⟩

theorem stateWF_congr (st st' : ServerState)
    (hr : st'.rooms = st.rooms)
    (hs : st'.sessions.map Prod.fst = st.sessions.map Prod.fst)
    (h : StateWF st) : StateWF st' := by
  obtain ⟨h1, h2, h3⟩ := h
  refine ⟨by rw [hs]; exact h1, by rw [hr]; exact h2, ?_⟩
  intro r room hget
  rw [hr] at hget
  exact h3 r room hget

/-! Shape lemmas for the event-handler branches. -/

theorem handleCreateRoom_rooms (st : ServerState) (sessionId : JStr) (session : Session)
    (o : Oracle) :
    (handleCreateRoom st sessionId session o).rooms
      = mapSet o.genRoomId ⟨o.genRoomId, sessionId, [sessionId], o.nowMs⟩ st.rooms := rfl

theorem handleCreateRoom_sessions (st : ServerState) (sessionId : JStr) (session : Session)
    (o : Oracle) :
    (handleCreateRoom st sessionId session o).sessions
      = mapSet sessionId
          ({ session with
              roomId := some o.genRoomId,
              messageQueue := session.messageQueue ++
                [encodeEventPacket "createdRoom".data
                  (J.obj [("roomId".data, J.str o.genRoomId), ("isHost".data, J.bool true)])] })
          st.sessions := rfl

/-! Preservation of forward membership consistency, branch by branch. -/

theorem roomIdSound_createRoom (st : ServerState) (sessionId : JStr) (session : Session)
    (o : Oracle) (hfresh : mapGet o.genRoomId st.rooms = none)
    (h : RoomIdSound st) : RoomIdSound (handleCreateRoom st sessionId session o) := by
  intro sid sess r hget hroom
  rw [handleCreateRoom_sessions] at hget
  rw [handleCreateRoom_rooms]
  by_cases hsid : sessionId = sid
  · subst hsid
    rw [mapGet_set_self] at hget
    injection hget with hget
    rw [← hget] at hroom
    simp only at hroom
    injection hroom with hr0
    subst hr0
    exact ⟨_, mapGet_set_self _ _ _, by simp⟩
  · rw [mapGet_set_ne _ _ _ _ hsid] at hget
    obtain ⟨room, hrm, hmem⟩ := h sid sess r hget hroom
    by_cases hr' : o.genRoomId = r
    · subst hr'
      rw [hfresh] at hrm
      cases hrm
    · exact ⟨room, by rw [mapGet_set_ne _ _ _ _ hr']; exact hrm, hmem⟩

theorem roomIdSound_joinRoom (st : ServerState) (sessionId : JStr) (session : Session)
    (payload : EventPayload)
    (h : RoomIdSound st) : RoomIdSound (handleJoinRoom st sessionId session payload) := by
  unfold handleJoinRoom
  split
  · exact h
  next target htarget =>
    split
    · exact h
    next room hrt =>
      split
      · exact h
      next hmem =>
        simp only
        apply roomIdSound_congr _ _ (broadcast_rooms _ _ _ _ _)
          (fun k => broadcast_roomId _ _ _ _ _ k)
        intro sid sess r hget hroom
        simp only at hget ⊢
        by_cases hsid : sessionId = sid
        · subst hsid
          rw [mapGet_set_self] at hget
          injection hget with hget
          rw [← hget] at hroom
          simp only at hroom
          injection hroom with hr0
          subst hr0
          exact ⟨_, mapGet_set_self _ _ _, by simp⟩
        · rw [mapGet_set_ne _ _ _ _ hsid] at hget
          obtain ⟨room', hrm, hmem'⟩ := h sid sess r hget hroom
          by_cases hr' : target = r
          · subst hr'
            rw [hrt] at hrm
            injection hrm with hrm
            subst hrm
            refine ⟨_, mapGet_set_self _ _ _, ?_⟩
            simp only [List.mem_append]
            exact Or.inl hmem'
          · exact ⟨room', by rw [mapGet_set_ne _ _ _ _ hr']; exact hrm, hmem'⟩

theorem leaveRoomStep_roomId (st : ServerState) (sessionId r0 k : JStr) :
    (mapGet k (leaveRoomStep st sessionId r0).sessions).map Session.roomId
      = (mapGet k st.sessions).map Session.roomId := by
  unfold leaveRoomStep
  split
  · rfl
  next room hrt =>
    simp only
    split
    · rfl
    · exact broadcast_roomId _ _ _ _ _ k

theorem leaveRoomStep_keys (st : ServerState) (sessionId r0 : JStr) :
    (leaveRoomStep st sessionId r0).sessions.map Prod.fst
      = st.sessions.map Prod.fst := by
  unfold leaveRoomStep
  split
  · rfl
  next room hrt =>
    simp only
    split
    · rfl
    · exact broadcast_keys _ _ _ _ _

theorem leaveRoomStep_sound (st : ServerState) (sessionId r0 : JStr)
    (h : RoomIdSound st) :
    ∀ sid sess r, sid ≠ sessionId → mapGet sid st.sessions = some sess →
      sess.roomId = some r →
      ∃ room', mapGet r (leaveRoomStep st sessionId r0).rooms = some room'
        ∧ sid ∈ room'.players := by
  intro sid sess r hne hget hroom
  obtain ⟨room', hrm, hmem⟩ := h sid sess r hget hroom
  unfold leaveRoomStep
  split
  · exact ⟨room', hrm, hmem⟩
  next room hrt =>
    have hmemfilter : ∀ (hr0 : r0 = r),
        sid ∈ room.players.filter (fun p => !(p = sessionId : Bool)) := by
      intro hr0
      subst hr0
      rw [hrt] at hrm
      injection hrm with hrm
      subst hrm
      rw [List.mem_filter]
      exact ⟨hmem, by simp [hne]⟩
    simp only
    split
    next hlen =>
      by_cases hr0 : r0 = r
      · exfalso
        have := hmemfilter hr0
        rw [List.length_eq_zero] at hlen
        rw [hlen] at this
        cases this
      · exact ⟨room', by simp only; rw [mapGet_del_ne _ _ _ hr0]; exact hrm, hmem⟩
    next hlen =>
      rw [broadcast_rooms]
      by_cases hr0 : r0 = r
      · subst hr0
        exact ⟨_, mapGet_set_self _ _ _, hmemfilter rfl⟩
      · exact ⟨room', by simp only; rw [mapGet_set_ne _ _ _ _ hr0]; exact hrm, hmem⟩

theorem roomIdSound_leaveRoom (st : ServerState) (sessionId : JStr) (session : Session)
    (h : RoomIdSound st) : RoomIdSound (handleLeaveRoom st sessionId session) := by
  unfold handleLeaveRoom
  split
  case isTrue htruthy =>
    simp only
    split
    next hnone =>
      intro sid sess r hget hroom
      have hne : sid ≠ sessionId := by
        intro hc
        rw [hc, hnone] at hget
        cases hget
      have hproj := leaveRoomStep_roomId st sessionId (session.roomId.getD []) sid
      rw [hget] at hproj
      rcases hgs : mapGet sid st.sessions with _ | s0
      · rw [hgs] at hproj; cases hproj
      · rw [hgs] at hproj
        simp only [Option.map_some'] at hproj
        exact leaveRoomStep_sound st sessionId _ h sid s0 r hne hgs
          (by rw [← Option.some.inj hproj, hroom])
    next s1 hs1 =>
      intro sid sess r hget hroom
      simp only at hget ⊢
      by_cases hsid : sessionId = sid
      · subst hsid
        rw [mapGet_set_self] at hget
        injection hget with hget
        rw [← hget] at hroom
        cases hroom
      · rw [mapGet_set_ne _ _ _ _ hsid] at hget
        have hne : sid ≠ sessionId := fun hc => hsid hc.symm
        have hproj := leaveRoomStep_roomId st sessionId (session.roomId.getD []) sid
        rw [hget] at hproj
        rcases hgs : mapGet sid st.sessions with _ | s0
        · rw [hgs] at hproj; cases hproj
        · rw [hgs] at hproj
          simp only [Option.map_some'] at hproj
          exact leaveRoomStep_sound st sessionId _ h sid s0 r hne hgs
            (by rw [← Option.some.inj hproj, hroom])
  case isFalse => exact h

theorem roomIdSound_setSession (st : ServerState) (s : JStr) (s0 s1 : Session)
    (hget : mapGet s st.sessions = some s0) (hroom : s1.roomId = s0.roomId)
    (h : RoomIdSound st) :
    RoomIdSound { st with sessions := mapSet s s1 st.sessions } := by
  refine roomIdSound_congr st { st with sessions := mapSet s s1 st.sessions } rfl ?_ h
  intro k
  simp only
  by_cases hk : s = k
  · subst hk
    rw [mapGet_set_self, hget]
    simp [hroom]
  · rw [mapGet_set_ne _ _ _ _ hk]

theorem roomIdSound_chat (st : ServerState) (sessionId : JStr) (session : Session)
    (payload : EventPayload) (o : Oracle)
    (h : RoomIdSound st) :
    RoomIdSound (handleChatMessage st sessionId session payload o) := by
  unfold handleChatMessage
  split
  · simp only
    exact roomIdSound_congr _ _ (broadcast_rooms _ _ _ _ _)
      (fun k => broadcast_roomId _ _ _ _ _ k) h
  · exact h

theorem roomIdSound_log (st : ServerState) (sessionId : JStr) (session : Session)
    (payload : EventPayload) (o : Oracle)
    (h : RoomIdSound st) :
    RoomIdSound (handleLogMessage st sessionId session payload o) := by
  unfold handleLogMessage
  split
  · simp only
    exact roomIdSound_congr _ _ (broadcast_rooms _ _ _ _ _)
      (fun k => broadcast_roomId _ _ _ _ _ k) h
  · exact h

theorem roomIdSound_event (st : ServerState) (sid : JStr) (o : Oracle) (ev : EventIn)
    (hfresh : freshPacket st (.event ev o) = true)
    (h : RoomIdSound st) : RoomIdSound (handleSocketIOEvent st sid o ev) := by
  unfold handleSocketIOEvent
  split
  · exact h
  next session hsess =>
    by_cases h1 : ev.name = "createRoom".data
    · rw [if_pos h1]
      rcases hg : mapGet o.genRoomId st.rooms with _ | w
      · exact roomIdSound_createRoom st sid session o hg h
      · exfalso
        simp [freshPacket, h1, hg] at hfresh
    · rw [if_neg h1]
      by_cases h2 : ev.name = "joinRoom".data
      · rw [if_pos h2]
        exact roomIdSound_joinRoom st sid session ev.payload h
      · rw [if_neg h2]
        by_cases h3 : ev.name = "leaveRoom".data
        · rw [if_pos h3]
          exact roomIdSound_leaveRoom st sid session h
        · rw [if_neg h3]
          by_cases h4 : ev.name = "chatMessage".data
          · rw [if_pos h4]
            exact roomIdSound_chat st sid session ev.payload o h
          · rw [if_neg h4]
            by_cases h5 : ev.name = "logMessage".data
            · rw [if_pos h5]
              exact roomIdSound_log st sid session ev.payload o h
            · rw [if_neg h5]
              exact h

theorem roomIdSound_packet (st : ServerState) (sid : JStr) (p : PacketIn)
    (hfresh : freshPacket st p = true)
    (h : RoomIdSound st) : RoomIdSound (applyPacket st sid p) := by
  cases p with
  | event ev o => exact roomIdSound_event st sid o ev hfresh h
  | ping =>
    exact roomIdSound_congr _ _ (pushMsg_rooms _ _ _) (fun k => pushMsg_roomId _ _ _ k) h
  | other => exact h

theorem roomIdSound_packets (packets : List PacketIn) :
    ∀ st : ServerState, ∀ sid : JStr, RoomIdSound st →
      freshPackets st sid packets = true →
      RoomIdSound (packets.foldl (fun acc p => applyPacket acc sid p) st) := by
  induction packets with
  | nil => intro st sid h _; exact h
  | cons p ps ih =>
    intro st sid h hf
    simp only [freshPackets, Bool.and_eq_true] at hf
    simp only [List.foldl_cons]
    exact ih _ sid (roomIdSound_packet st sid p hf.1 h) hf.2

theorem roomIdSound_pollingGet (st : ServerState) (sid : Option JStr) (freshSid : JStr)
    (now : Nat) (h : RoomIdSound st) :
    RoomIdSound (handlePollingGet st sid freshSid now).1 := by
  unfold handlePollingGet
  split
  · intro sid' sess r hget hroom
    simp only at hget
    by_cases hk : freshSid = sid'
    · subst hk
      rw [mapGet_set_self] at hget
      injection hget with hget
      rw [← hget] at hroom
      cases hroom
    · rw [mapGet_set_ne _ _ _ _ hk] at hget
      exact h sid' sess r hget hroom
  · split
    next => exact h
    next session hsess =>
      simp only
      split
      · exact roomIdSound_setSession st _ session _ hsess rfl h
      · split
        · exact roomIdSound_setSession st _ session _ hsess rfl h
        · exact roomIdSound_setSession st _ session _ hsess rfl h

theorem roomIdSound_pollingPost (st : ServerState) (sid : Option JStr)
    (packets : List PacketIn) (now : Nat)
    (hfresh : freshReq st (.post sid packets now) = true)
    (h : RoomIdSound st) :
    RoomIdSound (handlePollingPost st sid packets now).1 := by
  cases sid with
  | none => exact h
  | some s =>
    unfold handlePollingPost
    split
    next => exact h
    next _ b hb =>
      injection hb with hb
      subst hb
      split
      next => exact h
      next sess hsess =>
        simp only
        have h0 : freshReq st (.post (some s) packets now)
            = match mapGet s st.sessions with
              | none => true
              | some sess1 =>
                freshPackets
                  { st with sessions :=
                      mapSet s ({ sess1 with lastActivity := now }) st.sessions }
                  s packets := rfl
        rw [h0, hsess] at hfresh
        exact roomIdSound_packets packets _ s
          (roomIdSound_setSession st s sess _ hsess rfl h) hfresh

theorem roomIdSound_request (st : ServerState) (r : Request)
    (hfresh : freshReq st r = true)
    (h : RoomIdSound st) : RoomIdSound (applyRequest st r).1 := by
  cases r with
  | get sid freshSid now => exact roomIdSound_pollingGet st sid freshSid now h
  | post sid packets now => exact roomIdSound_pollingPost st sid packets now hfresh h

/-! Preservation of registry well-formedness (distinct keys, no empty
rooms), branch by branch. -/

theorem stateWF_setSession (st : ServerState) (s : JStr) (s0 s1 : Session)
    (hget : mapGet s st.sessions = some s0) (h : StateWF st) :
    StateWF { st with sessions := mapSet s s1 st.sessions } := by
  refine stateWF_congr st { st with sessions := mapSet s s1 st.sessions } rfl ?_ h
  exact keys_mapSet_of_mem s s1 st.sessions (by rw [hget]; exact Option.noConfusion)

theorem stateWF_createRoom (st : ServerState) (sessionId : JStr) (session : Session)
    (o : Oracle) (h : StateWF st) : StateWF (handleCreateRoom st sessionId session o) := by
  obtain ⟨h1, h2, h3⟩ := h
  refine ⟨?_, ?_, ?_⟩
  · rw [handleCreateRoom_sessions]
    exact keys_nodup_mapSet _ _ _ h1
  · rw [handleCreateRoom_rooms]
    exact keys_nodup_mapSet _ _ _ h2
  · intro r room hget'
    rw [handleCreateRoom_rooms] at hget'
    rw [mapGet_set] at hget'
    by_cases hi : o.genRoomId = r
    · rw [if_pos hi] at hget'
      injection hget' with hget'
      rw [← hget']
      simp
    · rw [if_neg hi] at hget'
      exact h3 r room hget'

theorem stateWF_joinRoom (st : ServerState) (sessionId : JStr) (session : Session)
    (payload : EventPayload) (h : StateWF st) :
    StateWF (handleJoinRoom st sessionId session payload) := by
  unfold handleJoinRoom
  split
  · exact h
  next target htarget =>
    split
    · exact h
    next room hrt =>
      split
      · exact h
      next hmem =>
        simp only
        refine stateWF_congr _ _ (broadcast_rooms _ _ _ _ _) (broadcast_keys _ _ _ _ _) ?_
        obtain ⟨h1, h2, h3⟩ := h
        refine ⟨keys_nodup_mapSet _ _ _ h1, keys_nodup_mapSet _ _ _ h2, ?_⟩
        intro r room' hget'
        simp only at hget'
        rw [mapGet_set] at hget'
        by_cases hi : target = r
        · rw [if_pos hi] at hget'
          injection hget' with hget'
          rw [← hget']
          simp
        · rw [if_neg hi] at hget'
          exact h3 r room' hget'

theorem stateWF_leaveRoomStep (st : ServerState) (sessionId r0 : JStr) (h : StateWF st) :
    StateWF (leaveRoomStep st sessionId r0) := by
  unfold leaveRoomStep
  split
  · exact h
  next room hrt =>
    simp only
    split
    next hlen =>
      obtain ⟨h1, h2, h3⟩ := h
      refine ⟨h1, keys_nodup_mapDelete _ _ h2, ?_⟩
      intro r room' hget'
      simp only at hget'
      by_cases hi : r0 = r
      · subst hi
        rw [mapGet_del_self _ _ h2] at hget'
        cases hget'
      · rw [mapGet_del_ne _ _ _ hi] at hget'
        exact h3 r room' hget'
    next hlen =>
      refine stateWF_congr _ _ (broadcast_rooms _ _ _ _ _) (broadcast_keys _ _ _ _ _) ?_
      obtain ⟨h1, h2, h3⟩ := h
      refine ⟨h1, keys_nodup_mapSet _ _ _ h2, ?_⟩
      intro r room' hget'
      simp only at hget'
      rw [mapGet_set] at hget'
      by_cases hi : r0 = r
      · rw [if_pos hi] at hget'
        injection hget' with hget'
        rw [← hget']
        intro hc
        apply hlen
        have : room.players.filter (fun p => !(p = sessionId : Bool)) = [] := hc
        rw [this]
        rfl
      · rw [if_neg hi] at hget'
        exact h3 r room' hget'

theorem stateWF_leaveRoom (st : ServerState) (sessionId : JStr) (session : Session)
    (h : StateWF st) : StateWF (handleLeaveRoom st sessionId session) := by
  unfold handleLeaveRoom
  split
  · simp only
    split
    next => exact stateWF_leaveRoomStep _ _ _ h
    next s1 hs1 =>
      refine stateWF_congr (leaveRoomStep st sessionId (session.roomId.getD []))
        _ rfl ?_ (stateWF_leaveRoomStep _ _ _ h)
      simp only
      exact keys_mapSet_of_mem _ _ _ (by rw [hs1]; exact Option.noConfusion)
  · exact h

theorem stateWF_chat (st : ServerState) (sessionId : JStr) (session : Session)
    (payload : EventPayload) (o : Oracle) (h : StateWF st) :
    StateWF (handleChatMessage st sessionId session payload o) := by
  unfold handleChatMessage
  split
  · simp only
    exact stateWF_congr _ _ (broadcast_rooms _ _ _ _ _) (broadcast_keys _ _ _ _ _) h
  · exact h

theorem stateWF_log (st : ServerState) (sessionId : JStr) (session : Session)
    (payload : EventPayload) (o : Oracle) (h : StateWF st) :
    StateWF (handleLogMessage st sessionId session payload o) := by
  unfold handleLogMessage
  split
  · simp only
    exact stateWF_congr _ _ (broadcast_rooms _ _ _ _ _) (broadcast_keys _ _ _ _ _) h
  · exact h

theorem stateWF_event (st : ServerState) (sid : JStr) (o : Oracle) (ev : EventIn)
    (h : StateWF st) : StateWF (handleSocketIOEvent st sid o ev) := by
  unfold handleSocketIOEvent
  split
  · exact h
  next session hsess =>
    by_cases h1 : ev.name = "createRoom".data
    · rw [if_pos h1]
      exact stateWF_createRoom st sid session o h
    · rw [if_neg h1]
      by_cases h2 : ev.name = "joinRoom".data
      · rw [if_pos h2]
        exact stateWF_joinRoom st sid session ev.payload h
      · rw [if_neg h2]
        by_cases h3 : ev.name = "leaveRoom".data
        · rw [if_pos h3]
          exact stateWF_leaveRoom st sid session h
        · rw [if_neg h3]
          by_cases h4 : ev.name = "chatMessage".data
          · rw [if_pos h4]
            exact stateWF_chat st sid session ev.payload o h
          · rw [if_neg h4]
            by_cases h5 : ev.name = "logMessage".data
            · rw [if_pos h5]
              exact stateWF_log st sid session ev.payload o h
            · rw [if_neg h5]
              exact h

theorem stateWF_packet (st : ServerState) (sid : JStr) (p : PacketIn)
    (h : StateWF st) : StateWF (applyPacket st sid p) := by
  cases p with
  | event ev o => exact stateWF_event st sid o ev h
  | ping => exact stateWF_congr _ _ (pushMsg_rooms _ _ _) (pushMsg_keys _ _ _) h
  | other => exact h

theorem stateWF_packets (packets : List PacketIn) :
    ∀ st : ServerState, ∀ sid : JStr, StateWF st →
      StateWF (packets.foldl (fun acc p => applyPacket acc sid p) st) := by
  induction packets with
  | nil => intro st sid h; exact h
  | cons p ps ih =>
    intro st sid h
    simp only [List.foldl_cons]
    exact ih _ sid (stateWF_packet st sid p h)

theorem stateWF_pollingGet (st : ServerState) (sid : Option JStr) (freshSid : JStr)
    (now : Nat) (h : StateWF st) : StateWF (handlePollingGet st sid freshSid now).1 := by
  unfold handlePollingGet
  split
  · obtain ⟨h1, h2, h3⟩ := h
    exact ⟨keys_nodup_mapSet _ _ _ h1, h2, h3⟩
  · split
    next => exact h
    next session hsess =>
      simp only
      split
      · exact stateWF_setSession st _ session _ hsess h
      · split
        · exact stateWF_setSession st _ session _ hsess h
        · exact stateWF_setSession st _ session _ hsess h

theorem stateWF_pollingPost (st : ServerState) (sid : Option JStr)
    (packets : List PacketIn) (now : Nat) (h : StateWF st) :
    StateWF (handlePollingPost st sid packets now).1 := by
  cases sid with
  | none => exact h
  | some s =>
    unfold handlePollingPost
    split
    next => exact h
    next _ b hb =>
      injection hb with hb
      subst hb
      split
      next => exact h
      next sess hsess =>
        simp only
        exact stateWF_packets packets _ s (stateWF_setSession st s sess _ hsess h)

theorem stateWF_request (st : ServerState) (r : Request) (h : StateWF st) :
    StateWF (applyRequest st r).1 := by
  cases r with
  | get sid freshSid now => exact stateWF_pollingGet st sid freshSid now h
  | post sid packets now => exact stateWF_pollingPost st sid packets now h

theorem stateWF_of_reachable (st : ServerState) (h : Reachable st) : StateWF st := by
  induction h with
  | init =>
    refine ⟨List.nodup_nil, List.nodup_nil, ?_⟩
    intro r room hget
    cases hget
  | step st r hst ih => exact stateWF_request st r ih

/-! Dispatch and single-step evaluation lemmas used by the claim
theorems. -/

theorem jsTruthyStr_some (r : JStr) (hne : r ≠ []) : jsTruthyStr (some r) = true := by
  cases r with
  | nil => exact absurd rfl hne
  | cons c cs => rfl

theorem event_dispatch_leaveRoom (st : ServerState) (sid : JStr) (o : Oracle)
    (ev : EventIn) (session : Session)
    (hname : ev.name = "leaveRoom".data)
    (hsess : mapGet sid st.sessions = some session) :
    handleSocketIOEvent st sid o ev = handleLeaveRoom st sid session := by
  unfold handleSocketIOEvent
  split
  next hnone => rw [hsess] at hnone; cases hnone
  next session' hsess' =>
    rw [hsess] at hsess'
    injection hsess' with hsess'
    subst hsess'
    rw [hname, if_neg (by decide), if_neg (by decide), if_pos rfl]

theorem event_dispatch_joinRoom (st : ServerState) (sid : JStr) (o : Oracle)
    (ev : EventIn) (session : Session)
    (hname : ev.name = "joinRoom".data)
    (hsess : mapGet sid st.sessions = some session) :
    handleSocketIOEvent st sid o ev = handleJoinRoom st sid session ev.payload := by
  unfold handleSocketIOEvent
  split
  next hnone => rw [hsess] at hnone; cases hnone
  next session' hsess' =>
    rw [hsess] at hsess'
    injection hsess' with hsess'
    subst hsess'
    rw [hname, if_neg (by decide), if_pos rfl]

theorem handleJoinRoom_noop (st : ServerState) (sid : JStr) (session : Session)
    (pl : EventPayload) (r : JStr) (room : Room)
    (hpl : pl.roomId = some r)
    (hroom : mapGet r st.rooms = some room)
    (hmem : sid ∈ room.players) :
    handleJoinRoom st sid session pl = st := by
  unfold handleJoinRoom
  split
  next heq => rw [hpl] at heq
  next target heq =>
    rw [hpl] at heq
    injection heq with heq
    subst heq
    split
    next heq2 => rw [hroom] at heq2
    next room' heq2 =>
      rw [hroom] at heq2
      injection heq2 with heq2
      subst heq2
      rw [if_pos hmem]

theorem poll_step_cons (st : ServerState) (sid : JStr) (session : Session)
    (f m : JStr) (rest : List JStr) (t : Nat)
    (hne : sid ≠ [])
    (hsess : mapGet sid st.sessions = some session)
    (hconn : session.connected = true)
    (hq : session.messageQueue = m :: rest) :
    handlePollingGet st (some sid) f t =
      ({ st with sessions := mapSet sid ({ session with lastActivity := t, messageQueue := rest }) st.sessions }, ⟨200, m⟩) := by
  unfold handlePollingGet
  rw [if_neg (by simp [jsTruthyStr_some sid hne])]
  split
  next hnone =>
    simp only [Option.getD_some] at hnone
    rw [hsess] at hnone
    cases hnone
  next session' hsess' =>
    simp only [Option.getD_some] at hsess' ⊢
    rw [hsess] at hsess'
    injection hsess' with hsess'
    subst hsess'
    rw [if_neg (by simp [hconn])]
    simp only [hq]

theorem poll_step_nil (st : ServerState) (sid : JStr) (session : Session)
    (f : JStr) (t : Nat)
    (hne : sid ≠ [])
    (hsess : mapGet sid st.sessions = some session)
    (hconn : session.connected = true)
    (hq : session.messageQueue = []) :
    handlePollingGet st (some sid) f t =
      ({ st with sessions := mapSet sid ({ session with lastActivity := t }) st.sessions }, ⟨200, []⟩) := by
  unfold handlePollingGet
  rw [if_neg (by simp [jsTruthyStr_some sid hne])]
  split
  next hnone =>
    simp only [Option.getD_some] at hnone
    rw [hsess] at hnone
    cases hnone
  next session' hsess' =>
    simp only [Option.getD_some] at hsess' ⊢
    rw [hsess] at hsess'
    injection hsess' with hsess'
    subst hsess'
    rw [if_neg (by simp [hconn])]
    simp only [hq]

theorem pollTrace_cons (sid : JStr) (st : ServerState) (t : Nat) (ts : List Nat) :
    pollTrace sid st (t :: ts)
      = ((pollTrace sid (handlePollingGet st (some sid) [] t).1 ts).1,
         (handlePollingGet st (some sid) [] t).2
           :: (pollTrace sid (handlePollingGet st (some sid) [] t).1 ts).2) := rfl

theorem pollTrace_spec (ts : List Nat) :
    ∀ (st : ServerState) (sid : JStr) (session : Session),
      sid ≠ [] →
      mapGet sid st.sessions = some session →
      session.connected = true →
      ts.length ≤ session.messageQueue.length →
      (pollTrace sid st ts).2
          = (session.messageQueue.take ts.length).map (fun m => HttpResponse.mk 200 m)
        ∧ ∃ session', mapGet sid (pollTrace sid st ts).1.sessions = some session'
            ∧ session'.messageQueue = session.messageQueue.drop ts.length
            ∧ session'.connected = true := by
  induction ts with
  | nil =>
    intro st sid session hne hsess hconn hlen
    exact ⟨rfl, session, hsess, rfl, hconn⟩
  | cons t ts ih =>
    intro st sid session hne hsess hconn hlen
    rcases hq : session.messageQueue with _ | ⟨m, rest⟩
    · rw [hq] at hlen
      simp at hlen
    · have hstep := poll_step_cons st sid session [] m rest t hne hsess hconn hq
      rw [pollTrace_cons, hstep]
      simp only
      have hlen' : ts.length ≤ rest.length := by
        rw [hq] at hlen
        exact Nat.succ_le_succ_iff.mp hlen
      obtain ⟨ha, session', hb, hc, hd⟩ :=
        ih (⟨mapSet sid ({ session with lastActivity := t, messageQueue := rest }) st.sessions, st.rooms⟩ : ServerState)
          sid ({ session with lastActivity := t, messageQueue := rest }) hne
          (mapGet_set_self _ _ _) hconn hlen'
      constructor
      · simp only [List.length_cons, List.take_succ_cons, List.map_cons]
        exact congrArg (HttpResponse.mk 200 m :: ·) ha
      · refine ⟨session', hb, ?_, hd⟩
        simp only [List.length_cons, List.drop_succ_cons]
        exact hc

theorem handshakeTrace_cons (st : ServerState) (f : JStr) (t : Nat)
    (rest : List (JStr × Nat)) :
    handshakeTrace st ((f, t) :: rest)
      = ((handshakeTrace (handlePollingGet st none f t).1 rest).1,
         (handlePollingGet st none f t).2
           :: (handshakeTrace (handlePollingGet st none f t).1 rest).2) := rfl

theorem handshake_step (st : ServerState) (f : JStr) (t : Nat) :
    handlePollingGet st none f t
      = ({ st with sessions := mapSet f ⟨f, false, [], t, none⟩ st.sessions },
         ⟨200, handshakeBody f⟩) := rfl

theorem handshakeTrace_spec (ids : List (JStr × Nat)) :
    ∀ st : ServerState,
      (∀ p ∈ ids, mapGet p.1 st.sessions = none) →
      (ids.map Prod.fst).Nodup →
      (handshakeTrace st ids).2 = ids.map (fun p => HttpResponse.mk 200 (handshakeBody p.1))
      ∧ (handshakeTrace st ids).1.sessions
          = st.sessions ++ ids.map (fun p => (p.1, (⟨p.1, false, [], p.2, none⟩ : Session))) := by
  induction ids with
  | nil =>
    intro st habs hnd
    exact ⟨rfl, by simp [handshakeTrace]⟩
  | cons p ps ih =>
    intro st habs hnd
    obtain ⟨f, t⟩ := p
    rw [handshakeTrace_cons, handshake_step]
    simp only
    have habsf : mapGet f st.sessions = none := habs (f, t) (List.mem_cons_self _ _)
    have hset : mapSet f (⟨f, false, [], t, none⟩ : Session) st.sessions
        = st.sessions ++ [(f, (⟨f, false, [], t, none⟩ : Session))] :=
      mapSet_of_absent _ _ _ habsf
    simp only [List.map_cons, List.nodup_cons] at hnd
    have habs' : ∀ q ∈ ps,
        mapGet q.1 (mapSet f (⟨f, false, [], t, none⟩ : Session) st.sessions) = none := by
      intro q hq
      have hqf : f ≠ q.1 := by
        intro hc
        exact hnd.1 (hc ▸ (List.mem_map.mpr ⟨q, hq, rfl⟩))
      rw [mapGet_set_ne _ _ _ _ hqf]
      exact habs q (List.mem_cons_of_mem _ hq)
    obtain ⟨ha, hb⟩ :=
      ih (⟨mapSet f (⟨f, false, [], t, none⟩ : Session) st.sessions, st.rooms⟩ : ServerState)
        habs' hnd.2
    constructor
    · rw [List.map_cons]
      exact congrArg (HttpResponse.mk 200 (handshakeBody f) :: ·) ha
    · rw [hb]
      simp only [hset]
      rw [List.append_assoc]
      rfl

theorem jsSubstringFrom_one (c : Char) (p : JStr) :
    jsSubstringFrom (c :: p) 1 = p := by
  unfold jsSubstringFrom jsSubstring
  simp only [List.length_cons]
  have h1 : (max (1 : Int) 0).toNat = 1 := rfl
  have h2 : (max ((p.length + 1 : Nat) : Int) 0).toNat = p.length + 1 := by
    rw [max_eq_left (by positivity)]
    exact Int.toNat_ofNat _
  rw [h1, h2]
  have h3 : min 1 (p.length + 1) = 1 := by omega
  have h4 : min (p.length + 1) (p.length + 1) = p.length + 1 := by omega
  rw [h3, h4]
  have h5 : max 1 (p.length + 1) = p.length + 1 := by omega
  have h6 : min 1 (p.length + 1) = 1 := by omega
  rw [h5, h6]
  rw [← List.length_cons c p, List.take_length]
  rfl

/-! The ten claims. -/

/-- C3, counterexample: the transport-framing round trip fails as soon as
the payload contains the separator character.  Decoding the encoded
packet with type tag `'2'` and payload `":"` yields no packet at all (the
length-prefix branch reads the tag as a length and gives up), not the
original packet. -/
theorem c3_roundtrip_counterexample :
    parseEngineIOPackets (encodeEIOPacket '2' [':']) ≠ [⟨some '2', [':']⟩]
    ∧ parseEngineIOPackets (encodeEIOPacket '2' [':']) = [] := by decide

/-- C3 (amended): for every packet whose one-character type tag and
payload are free of the separator character `':'`, decoding the encoded
form (type tag concatenated with payload, as the server itself emits)
yields exactly the original packet. -/
theorem c3_framing_roundtrip (t : Char) (p : JStr) (ht : t ≠ ':') (hp : ':' ∉ p) :
    parseEngineIOPackets (encodeEIOPacket t p) = [⟨some t, p⟩] := by
  unfold parseEngineIOPackets encodeEIOPacket
  rw [if_neg (by simp [hp]; exact fun hc => ht hc.symm)]
  rw [jsSubstringFrom_one]
  rfl

/-- C3, witness for the amended round trip at a concrete packet. -/
theorem c3_framing_roundtrip_witness :
    parseEngineIOPackets (encodeEIOPacket '4' "hello".data) = [⟨some '4', "hello".data⟩] :=
  c3_framing_roundtrip '4' "hello".data (by decide) (by decide)

/-- C9: for every non-OPTIONS request under the `/socket.io/` prefix
whose `EIO` query parameter is absent or differs from `'4'`, the worker
returns status 400 with body `Unsupported Engine.IO version` and the
registries are untouched (the returned state is the input state). -/
theorem c9_eio_version_gate (st : ServerState) (req : HttpRequest)
    (hm : req.method ≠ "OPTIONS".data)
    (hp : List.isPrefixOf "/socket.io/".data req.pathname = true)
    (he : req.eio ≠ some "4".data) :
    fetchWorker st req = (st, ⟨400, "Unsupported Engine.IO version".data⟩) := by
  unfold fetchWorker
  rw [if_neg hm, if_neg (by simp [hp]), if_pos (by simp [he])]

/-- C9, witness: a GET poll request with `EIO=3` is rejected with the
version error and no state change. -/
theorem c9_eio_version_gate_witness :
    fetchWorker initialState
      ⟨"GET".data, "/socket.io/".data, some "3".data, some "polling".data, none, [], [], 0⟩
      = (initialState, ⟨400, "Unsupported Engine.IO version".data⟩) :=
  c9_eio_version_gate initialState
    ⟨"GET".data, "/socket.io/".data, some "3".data, some "polling".data, none, [], [], 0⟩
    (by decide) (by decide) (by decide)

/-- C10: handling a `leaveRoom` event from a session whose `roomId` is
unset changes nothing at all: the state (sessions, queues, rooms) after
the event equals the state before, so in particular no `leftRoom`
acknowledgement is queued. -/
theorem c10_leave_without_room_noop (st : ServerState) (sid : JStr) (session : Session)
    (o : Oracle) (pl : EventPayload)
    (hsess : mapGet sid st.sessions = some session)
    (hroom : session.roomId = none) :
    handleSocketIOEvent st sid o ⟨"leaveRoom".data, pl⟩ = st := by
  rw [event_dispatch_leaveRoom st sid o ⟨"leaveRoom".data, pl⟩ session rfl hsess]
  unfold handleLeaveRoom
  rw [hroom]
  rfl

/-- C10, witness: a fresh handshaked session that never joined a room
sends `leaveRoom`; the state is unchanged. -/
theorem c10_leave_without_room_noop_witness :
    handleSocketIOEvent (applyRequest initialState (.get none "s1".data 0)).1
      "s1".data {} ⟨"leaveRoom".data, {}⟩
      = (applyRequest initialState (.get none "s1".data 0)).1 :=
  c10_leave_without_room_noop (applyRequest initialState (.get none "s1".data 0)).1
    "s1".data ⟨"s1".data, false, [], 0, none⟩ {} {} (by decide) (by decide)

/-- C7: a GET poll with a (truthy) session id absent from the registry,
and a POST with such an id, both return status 400 with body
`Session not found` and leave the state untouched; by contrast the
per-recipient enqueue step used by broadcasts (`pushMsg`, the loop body
of `broadcastToRoom` with its `if (playerSession)` guard) on an absent
session id is the identity — silently ignored, not an error. -/
theorem c7_unknown_session (st : ServerState) (s f p msg : JStr) (t : Nat)
    (packets : List PacketIn)
    (hne : s ≠ [])
    (habs : mapGet s st.sessions = none)
    (habsp : mapGet p st.sessions = none) :
    handlePollingGet st (some s) f t = (st, ⟨400, "Session not found".data⟩)
    ∧ handlePollingPost st (some s) packets t = (st, ⟨400, "Session not found".data⟩)
    ∧ pushMsg st p msg = st := by
  refine ⟨?_, ?_, ?_⟩
  · unfold handlePollingGet
    rw [if_neg (by simp [jsTruthyStr_some s hne])]
    split
    next => rfl
    next session' hsess' =>
      simp only [Option.getD_some] at hsess'
      rw [habs] at hsess'
      cases hsess'
  · unfold handlePollingPost
    split
    next _ hb => cases hb
    next _ b hb =>
      injection hb with hb
      subst hb
      split
      next => rfl
      next sess hsess =>
        rw [habs] at hsess
        cases hsess
  · unfold pushMsg
    rw [habsp]

/-- C7, witness at the empty registry. -/
theorem c7_unknown_session_witness :
    handlePollingGet initialState (some "x".data) [] 0
        = (initialState, ⟨400, "Session not found".data⟩)
    ∧ handlePollingPost initialState (some "x".data) [] 0
        = (initialState, ⟨400, "Session not found".data⟩)
    ∧ pushMsg initialState "y".data "m".data = initialState :=
  c7_unknown_session initialState "x".data [] "y".data "m".data 0 []
    (by decide) (by decide) (by decide)

/-- C2 (refuting the fan-out exclusion): in the concrete run where `s1`
created room `r1`, `s2` joined it and `s1` then sent a chat message, the
encoded `chatMessage` packet is enqueued to the other member `s2` AND to
the sender `s1` itself — the source calls `broadcastToRoom` without an
`excludeSessionId` argument in the `chatMessage` arm, so the sender does
receive its own echo, contradicting the claim. -/
theorem c2_chat_echoed_to_sender :
    ((mapGet "s1".data chatEchoState.sessions).map
        (fun s => s.messageQueue.contains chatEchoPacket) = some true)
    ∧ ((mapGet "s2".data chatEchoState.sessions).map
        (fun s => s.messageQueue.contains chatEchoPacket) = some true) := by
  constructor
  · decide
  · decide

/-- C4: for an established session, successive polls deliver the queued
packets strictly in order, exactly one per poll, without reordering,
duplication or loss: the first `n` polls return precisely the first `n`
queued packets (each with status 200) and leave exactly the remaining
queue behind; a poll that finds an empty queue returns an empty body with
status 200. -/
theorem c4_polling_fifo (st : ServerState) (sid : JStr) (session : Session) (ts : List Nat)
    (hne : sid ≠ [])
    (hsess : mapGet sid st.sessions = some session)
    (hconn : session.connected = true)
    (hlen : ts.length ≤ session.messageQueue.length) :
    ((pollTrace sid st ts).2
        = (session.messageQueue.take ts.length).map (fun m => HttpResponse.mk 200 m))
    ∧ (∃ session', mapGet sid (pollTrace sid st ts).1.sessions = some session'
        ∧ session'.messageQueue = session.messageQueue.drop ts.length
        ∧ session'.connected = true)
    ∧ (session.messageQueue = [] →
        ∀ t : Nat, (handlePollingGet st (some sid) [] t).2 = ⟨200, []⟩) := by
  obtain ⟨ha, hb⟩ := pollTrace_spec ts st sid session hne hsess hconn hlen
  refine ⟨ha, hb, ?_⟩
  intro hq t
  rw [poll_step_nil st sid session [] t hne hsess hconn hq]

/-- C4, witness: two polls on a session with queue `[A, B]` return
exactly `A` then `B`. -/
theorem c4_polling_fifo_witness :
    (pollTrace "s1".data fifoDemoState [1, 2]).2 = [⟨200, "A".data⟩, ⟨200, "B".data⟩] := by
  have h := c4_polling_fifo fifoDemoState "s1".data
    ⟨"s1".data, true, ["A".data, "B".data], 0, none⟩ [1, 2]
    (by decide) (by decide) (by decide) (by decide)
  rw [h.1]
  decide

/-- C6: a `joinRoom` event from a session that is already a member of the
target room changes nothing (the state after the event equals the state
before, so the players list keeps its size and no duplicate is
appended), and the POST carrying it is still acknowledged with
status 200 and body `ok`, not an error. -/
theorem c6_join_idempotent (st : ServerState) (sid : JStr) (session : Session)
    (o : Oracle) (pl : EventPayload) (r : JStr) (room : Room) (now : Nat)
    (hsess : mapGet sid st.sessions = some session)
    (hpl : pl.roomId = some r)
    (hroom : mapGet r st.rooms = some room)
    (hmem : sid ∈ room.players) :
    handleSocketIOEvent st sid o ⟨"joinRoom".data, pl⟩ = st
    ∧ (handlePollingPost st (some sid) [.event ⟨"joinRoom".data, pl⟩ o] now).2
        = ⟨200, "ok".data⟩ := by
  constructor
  · rw [event_dispatch_joinRoom st sid o ⟨"joinRoom".data, pl⟩ session rfl hsess]
    exact handleJoinRoom_noop st sid session pl r room hpl hroom hmem
  · unfold handlePollingPost
    split
    next _ hb => cases hb
    next _ b hb =>
      injection hb with hb
      subst hb
      split
      next hnone => rw [hsess] at hnone; cases hnone
      next sess hsess' => rfl

/-- C6, witness: in the state where `s1` created and occupies room `r1`,
a second `joinRoom` for `r1` from `s1` is a no-op acknowledged with
`ok`. -/
theorem c6_join_idempotent_witness :
    handleSocketIOEvent demoRoomState "s1".data {}
        ⟨"joinRoom".data, { roomId := some "r1".data }⟩ = demoRoomState
    ∧ (handlePollingPost demoRoomState (some "s1".data)
        [.event ⟨"joinRoom".data, { roomId := some "r1".data }⟩ {}] 5).2
        = ⟨200, "ok".data⟩ := by
  rcases hgs : mapGet "s1".data demoRoomState.sessions with _ | sess
  · exact absurd hgs (by decide)
  · exact c6_join_idempotent demoRoomState "s1".data sess {}
      { roomId := some "r1".data } "r1".data ⟨"r1".data, "s1".data, ["s1".data], 1⟩ 5
      hgs (by decide) (by decide) (by decide)

/-- C1, counterexample: the claimed biconditional fails.  After `s1`
creates room `r1` and then, still a member of `r1`, creates room `r2`
(neither `createRoom` nor `joinRoom` removes the caller from its previous
room), room `r1` still lists `s1` among its players while `s1.roomId` is
`r2`, so membership does not imply `roomId`. -/
theorem c1_membership_iff_counterexample : ¬ MembershipIff cexMembershipState := by
  intro h
  rcases hgs : mapGet "s1".data cexMembershipState.sessions with _ | sess
  · exact absurd hgs (by decide)
  · have h2 : sess.roomId = some "r1".data :=
      (h "s1".data sess hgs "r1".data).mpr
        ⟨⟨"r1".data, "s1".data, ["s1".data], 11⟩, by decide, by decide⟩
    have h4 : (mapGet "s1".data cexMembershipState.sessions).map Session.roomId
        = some (some "r2".data) := by decide
    rw [hgs] at h4
    simp only [Option.map_some'] at h4
    injection h4 with h4
    rw [h2] at h4
    injection h4 with h4
    exact absurd h4 (by decide)

/-- C1 (amended to the direction the code maintains): in every state
reachable by handled requests whose generated room ids are fresh, a
session's `roomId`, when set, points at a stored room whose players list
contains that session id.  The converse direction of the claimed
biconditional is refuted by the counterexample. -/
theorem c1_roomId_forward_sound (st : ServerState) (h : ReachableFresh st) :
    RoomIdSound st := by
  induction h with
  | init =>
    intro sid sess r hget hroom
    cases hget
  | step st r hst hf ih => exact roomIdSound_request st r hf ih

/-- C1, witness: the forward invariant applied to the reachable state in
which `s1` created room `r1`. -/
theorem c1_roomId_forward_sound_witness :
    ∃ room, mapGet "r1".data demoRoomState.rooms = some room
      ∧ "s1".data ∈ room.players := by
  have hreach : ReachableFresh demoRoomState :=
    ReachableFresh.step _ _ (ReachableFresh.step _ _ ReachableFresh.init (by decide)) (by decide)
  rcases hgs : mapGet "s1".data demoRoomState.sessions with _ | sess
  · exact absurd hgs (by decide)
  · have h4 : (mapGet "s1".data demoRoomState.sessions).map Session.roomId
        = some (some "r1".data) := by decide
    rw [hgs] at h4
    simp only [Option.map_some'] at h4
    injection h4 with h4
    exact c1_roomId_forward_sound demoRoomState hreach "s1".data sess "r1".data hgs h4

/-- C5: in every reachable state, no stored room has an empty players
list; and handling a `leaveRoom` event from the sole member of a room
deletes the room — afterwards it is no longer retrievable by its id. -/
theorem c5_empty_room_deletion (st : ServerState) (h : Reachable st) :
    (∀ r room, mapGet r st.rooms = some room → room.players ≠ [])
    ∧ (∀ (sid : JStr) (session : Session) (r : JStr) (room : Room) (o : Oracle)
        (pl : EventPayload),
        mapGet sid st.sessions = some session → session.roomId = some r → r ≠ [] →
        mapGet r st.rooms = some room → room.players = [sid] →
        mapGet r (handleSocketIOEvent st sid o ⟨"leaveRoom".data, pl⟩).rooms = none) := by
  obtain ⟨h1, h2, h3⟩ := stateWF_of_reachable st h
  refine ⟨h3, ?_⟩
  intro sid session r room o pl hsess hrid hrne hroom hplayers
  rw [event_dispatch_leaveRoom st sid o ⟨"leaveRoom".data, pl⟩ session rfl hsess]
  unfold handleLeaveRoom
  rw [hrid, if_pos (by rw [jsTruthyStr_some r hrne])]
  simp only [Option.getD_some]
  have hstep : leaveRoomStep st sid r = { st with rooms := mapDelete r st.rooms } := by
    unfold leaveRoomStep
    split
    next hnone => rw [hroom] at hnone; cases hnone
    next room' hroom' =>
      rw [hroom] at hroom'
      injection hroom' with hroom'
      subst hroom'
      simp only
      rw [if_pos (by rw [hplayers]; simp)]
  rw [hstep]
  split
  next => exact mapGet_del_self _ _ h2
  next s1 hs1 =>
    simp only
    exact mapGet_del_self _ _ h2

/-- C5, witness: `s1`, sole member of `r1`, leaves; `r1` is gone. -/
theorem c5_empty_room_deletion_witness :
    mapGet "r1".data
      (handleSocketIOEvent demoRoomState "s1".data {} ⟨"leaveRoom".data, {}⟩).rooms
      = none := by
  have hreach : Reachable demoRoomState :=
    Reachable.step _ _ (Reachable.step _ _ Reachable.init)
  rcases hgs : mapGet "s1".data demoRoomState.sessions with _ | sess
  · exact absurd hgs (by decide)
  · have h4 : (mapGet "s1".data demoRoomState.sessions).map Session.roomId
        = some (some "r1".data) := by decide
    rw [hgs] at h4
    simp only [Option.map_some'] at h4
    injection h4 with h4
    exact (c5_empty_room_deletion demoRoomState hreach).2 "s1".data sess "r1".data
      ⟨"r1".data, "s1".data, ["s1".data], 1⟩ {} {} hgs h4 (by decide) (by decide) (by decide)

/-- C8: starting from the empty registry, any number of handshakes whose
id draws are pairwise distinct return, each, status 200 with a body that
is the open tag `'0'` followed by the serialised handshake object
(fresh sid, empty upgrades, pingInterval 25000, pingTimeout 20000,
maxPayload 1000000), and store exactly those distinct session ids. -/
theorem c8_handshake_uniqueness (ids : List (JStr × Nat))
    (hnd : (ids.map Prod.fst).Nodup) :
    (handshakeTrace initialState ids).2
        = ids.map (fun p => HttpResponse.mk 200 (handshakeBody p.1))
    ∧ (handshakeTrace initialState ids).1.sessions.map Prod.fst = ids.map Prod.fst
    ∧ ((handshakeTrace initialState ids).1.sessions.map Prod.fst).Nodup
    ∧ ∀ f : JStr, handshakeBody f = '0' :: jStringify (handshakeData f) := by
  obtain ⟨ha, hb⟩ := handshakeTrace_spec ids initialState (fun p _ => rfl) hnd
  have hkeys : (handshakeTrace initialState ids).1.sessions.map Prod.fst
      = ids.map Prod.fst := by
    rw [hb]
    simp [initialState, List.map_map, Function.comp]
  refine ⟨ha, hkeys, ?_, fun f => rfl⟩
  rw [hkeys]
  exact hnd

/-- C8, witness: two handshakes with distinct draws produce two distinct
stored sessions and the two open responses. -/
theorem c8_handshake_uniqueness_witness :
    (handshakeTrace initialState [("a".data, 0), ("b".data, 1)]).2
        = [⟨200, handshakeBody "a".data⟩, ⟨200, handshakeBody "b".data⟩]
    ∧ (handshakeTrace initialState
        [("a".data, 0), ("b".data, 1)]).1.sessions.map Prod.fst
        = ["a".data, "b".data] := by
  have h := c8_handshake_uniqueness [("a".data, 0), ("b".data, 1)] (by decide)
  exact ⟨h.1, h.2.1⟩

end Tabletop
